import Mathlib

/-!
# A verification model of the `looplite` HTTP micro-framework

This file gives a shallow embedding, in Lean 4, of the core of
`looplite/looplite.py`: the `Request` parser (`from_raw`, `from_stream`),
the `Response` serializer (`to_bytes`), the route table
(`route`, `get_handler_and_path_params`) and the argument binder
(`_get_args`), together with theorems about them.

Python dictionaries are modelled as insertion-ordered association lists
(`dget` looks a key up, `dset` is `d[k] = v`: it updates the first entry
with that key in place, or appends a fresh entry).  Python strings are
Lean `String`s; byte strings are `List Nat` with every element `< 256`.
Library calls (`urllib.parse.urlparse`, `urllib.parse.parse_qs`,
`json.loads`, `json.dumps`, `str.splitlines`, `str.split`, `str.strip`,
`bytes.decode`, `int`) are modelled by executable Lean functions that
follow the CPython behaviour on the inputs this program can produce.
-/

namespace Looplite

/-! ## Association lists modelling Python `dict` -/

/-- Lookup in an insertion-ordered association list (Python `d[k]` /
`d.get(k)`); returns the first entry, which is the unique one for lists
built with `dset` from `[]`. -/
def dget {α : Type} : List (String × α) → String → Option α
  | [], _ => none
  | (k, v) :: rest, key => if k = key then some v else dget rest key

/-- Python `d[k] = v` on an insertion-ordered association list: replace the
first entry with key `k` keeping its position, else append at the end. -/
def dset {α : Type} : List (String × α) → String → α → List (String × α)
  | [], key, v => [(key, v)]
  | (k, w) :: rest, key, v =>
    if k = key then (k, v) :: rest else (k, w) :: dset rest key v

/-- Key membership, Python `k in d`. -/
def dmem {α : Type} (d : List (String × α)) (key : String) : Bool :=
  (dget d key).isSome

/-! ## Python string helpers -/

/-- ASCII uppercasing of one character, the effect of Python `str.upper`
on the ASCII method tokens this program handles. -/
def pyUpperChar (c : Char) : Char :=
  if 97 ≤ c.toNat ∧ c.toNat ≤ 122 then
    Char.ofNat (c.toNat - 32)
  else c

/-- ASCII lowercasing of one character (Python `str.lower` on ASCII). -/
def pyLowerChar (c : Char) : Char :=
  if 65 ≤ c.toNat ∧ c.toNat ≤ 90 then
    Char.ofNat (c.toNat + 32)
  else c

/-- Python `s.upper()` (ASCII model). -/
def pyUpper (s : String) : String := String.mk (s.data.map pyUpperChar)

/-- Python `s.lower()` (ASCII model). -/
def pyLower (s : String) : String := String.mk (s.data.map pyLowerChar)

/-- Python's whitespace set for `str.strip` / `str.split` (ASCII part). -/
def pyIsSpace (c : Char) : Bool :=
  c = ' ' ∨ c = '\t' ∨ c = '\n' ∨ c = '\r' ∨ c = '\x0b' ∨ c = '\x0c'

/-- Python `s.strip()`: drop whitespace from both ends. -/
def pyStrip (s : String) : String :=
  String.mk (((s.data.dropWhile pyIsSpace).reverse.dropWhile pyIsSpace).reverse)

/-- Line-break characters recognised by Python `str.splitlines`
(`\r\n` is additionally treated as a single break). -/
def pyIsLineBreak (c : Char) : Bool :=
  c = '\n' ∨ c = '\r' ∨ c = '\x0b' ∨ c = '\x0c' ∨ c = '\x1c' ∨ c = '\x1d' ∨
    c = '\x1e' ∨ c = '\x85' ∨ c = '\u2028' ∨ c = '\u2029'

def pySplitlinesGo : List Char → List Char → List String
  | [], cur => if cur.isEmpty then [] else [String.mk cur.reverse]
  | '\r' :: '\n' :: rest, cur => String.mk cur.reverse :: pySplitlinesGo rest []
  | c :: rest, cur =>
    if pyIsLineBreak c then String.mk cur.reverse :: pySplitlinesGo rest []
    else pySplitlinesGo rest (c :: cur)

/-- Python `s.splitlines()`. -/
def pySplitlines (s : String) : List String := pySplitlinesGo s.data []

def pySplitWsGo : List Char → List Char → List String
  | [], cur => if cur.isEmpty then [] else [String.mk cur.reverse]
  | c :: rest, cur =>
    if pyIsSpace c then
      if cur.isEmpty then pySplitWsGo rest []
      else String.mk cur.reverse :: pySplitWsGo rest []
    else pySplitWsGo rest (c :: cur)

/-- Python `s.split()` with no argument: split on whitespace runs,
producing no empty fields. -/
def pySplitWs (s : String) : List String := pySplitWsGo s.data []

/-- Split a character list at the first occurrence of `sep`, the separator
removed; `none` when `sep` does not occur.  Models Python
`s.split(sep, 1)` yielding two parts. -/
def splitOnceChar (sep : Char) : List Char → Option (List Char × List Char)
  | [] => none
  | c :: rest =>
    if c = sep then some ([], rest)
    else (splitOnceChar sep rest).map (fun pr => (c :: pr.1, pr.2))

def pySplitAllCharGo (sep : Char) : List Char → List Char → List String
  | [], cur => [String.mk cur.reverse]
  | c :: rest, cur =>
    if c = sep then String.mk cur.reverse :: pySplitAllCharGo sep rest []
    else pySplitAllCharGo sep rest (c :: cur)

/-- Python `s.split(sep)` for a one-character separator. -/
def pySplitAllChar (sep : Char) (s : String) : List String :=
  pySplitAllCharGo sep s.data []

/-- Sub-sequence containment, Python `pat in s` for strings. -/
def containsSeq {α : Type} [BEq α] : List α → List α → Bool
  | pat, [] => pat.isEmpty
  | pat, s@(_ :: rest) => pat.isPrefixOf s || containsSeq pat rest

/-- Python `s.startswith(pre)`. -/
def strStartsWith (s pre : String) : Bool := pre.data.isPrefixOf s.data

/-! ## UTF-8, modelling `str.encode` / `bytes.decode` -/

/-- UTF-8 encoding of one scalar value (bytes as `Nat < 256`). -/
def utf8EncodeChar (c : Char) : List Nat :=
  let n := c.toNat
  if n < 0x80 then [n]
  else if n < 0x800 then [0xC0 + n / 64, 0x80 + n % 64]
  else if n < 0x10000 then
    [0xE0 + n / 4096, 0x80 + (n / 64) % 64, 0x80 + n % 64]
  else
    [0xF0 + n / 262144, 0x80 + (n / 4096) % 64, 0x80 + (n / 64) % 64, 0x80 + n % 64]

/-- Python `s.encode("utf-8")`. -/
def utf8Encode (s : String) : List Nat := (s.data.map utf8EncodeChar).flatten

/-- A UTF-8 continuation byte. -/
def utf8Cont (b : Nat) : Bool := 0x80 ≤ b ∧ b ≤ 0xBF

/-- Strict UTF-8 decoding, Python `bytes.decode()` with the default strict
error handler: rejects malformed, overlong and surrogate sequences and
returns `none` exactly where CPython raises `UnicodeDecodeError`. -/
def utf8DecodeGo : Nat → List Nat → Option (List Char)
  | 0, _ => none
  | _, [] => some []
  | Nat.succ fuel, b :: bs =>
    if b < 0x80 then (utf8DecodeGo fuel bs).map (fun cs => Char.ofNat b :: cs)
    else if b < 0xC2 then none
    else if b < 0xE0 then
      match bs with
      | b1 :: bs1 =>
        if utf8Cont b1 then
          (utf8DecodeGo fuel bs1).map (fun cs => Char.ofNat ((b - 0xC0) * 64 + (b1 - 0x80)) :: cs)
        else none
      | [] => none
    else if b < 0xF0 then
      match bs with
      | b1 :: b2 :: bs2 =>
        if (if b = 0xE0 then 0xA0 ≤ b1 ∧ b1 ≤ 0xBF
            else if b = 0xED then 0x80 ≤ b1 ∧ b1 ≤ 0x9F
            else utf8Cont b1 = true) ∧ utf8Cont b2 = true then
          (utf8DecodeGo fuel bs2).map
            (fun cs => Char.ofNat ((b - 0xE0) * 4096 + (b1 - 0x80) * 64 + (b2 - 0x80)) :: cs)
        else none
      | _ => none
    else if b < 0xF5 then
      match bs with
      | b1 :: b2 :: b3 :: bs3 =>
        if (if b = 0xF0 then 0x90 ≤ b1 ∧ b1 ≤ 0xBF
            else if b = 0xF4 then 0x80 ≤ b1 ∧ b1 ≤ 0x8F
            else utf8Cont b1 = true) ∧ utf8Cont b2 = true ∧ utf8Cont b3 = true then
          (utf8DecodeGo fuel bs3).map
            (fun cs => Char.ofNat
              ((b - 0xF0) * 262144 + (b1 - 0x80) * 4096 + (b2 - 0x80) * 64 + (b3 - 0x80)) :: cs)
        else none
      | _ => none
    else none

def utf8Decode (l : List Nat) : Option (List Char) :=
  utf8DecodeGo (l.length + 1) l

/-- UTF-8 decoding with the `replace` error handler (used by the model of
`urllib.parse.unquote`): a malformed sequence becomes one U+FFFD after its
longest valid prefix is consumed.  The fuel argument only forces
termination; every step consumes at least one byte, so `length + 1`
fuel (as passed by `utf8DecodeReplace`) never runs out. -/
def utf8DecodeReplaceGo : Nat → List Nat → List Char
  | 0, _ => []
  | _, [] => []
  | Nat.succ fuel, b :: bs =>
    if b < 0x80 then Char.ofNat b :: utf8DecodeReplaceGo fuel bs
    else if b < 0xC2 then '�' :: utf8DecodeReplaceGo fuel bs
    else if b < 0xE0 then
      match bs with
      | b1 :: bs1 =>
        if utf8Cont b1 then
          Char.ofNat ((b - 0xC0) * 64 + (b1 - 0x80)) :: utf8DecodeReplaceGo fuel bs1
        else '�' :: utf8DecodeReplaceGo fuel bs
      | [] => ['�']
    else if b < 0xF0 then
      match bs with
      | b1 :: rest1 =>
        if (if b = 0xE0 then 0xA0 ≤ b1 ∧ b1 ≤ 0xBF
            else if b = 0xED then 0x80 ≤ b1 ∧ b1 ≤ 0x9F
            else utf8Cont b1 = true) then
          match rest1 with
          | b2 :: bs2 =>
            if utf8Cont b2 then
              Char.ofNat ((b - 0xE0) * 4096 + (b1 - 0x80) * 64 + (b2 - 0x80)) ::
                utf8DecodeReplaceGo fuel bs2
            else '�' :: utf8DecodeReplaceGo fuel rest1
          | [] => ['�']
        else '�' :: utf8DecodeReplaceGo fuel bs
      | [] => ['�']
    else if b < 0xF5 then
      match bs with
      | b1 :: rest1 =>
        if (if b = 0xF0 then 0x90 ≤ b1 ∧ b1 ≤ 0xBF
            else if b = 0xF4 then 0x80 ≤ b1 ∧ b1 ≤ 0x8F
            else utf8Cont b1 = true) then
          match rest1 with
          | b2 :: rest2 =>
            if utf8Cont b2 then
              match rest2 with
              | b3 :: bs3 =>
                if utf8Cont b3 then
                  Char.ofNat ((b - 0xF0) * 262144 + (b1 - 0x80) * 4096 +
                    (b2 - 0x80) * 64 + (b3 - 0x80)) :: utf8DecodeReplaceGo fuel bs3
                else '�' :: utf8DecodeReplaceGo fuel rest2
              | [] => ['�']
            else '�' :: utf8DecodeReplaceGo fuel rest1
          | [] => ['�']
        else '�' :: utf8DecodeReplaceGo fuel bs
      | [] => ['�']
    else '�' :: utf8DecodeReplaceGo fuel bs

def utf8DecodeReplace (l : List Nat) : List Char :=
  utf8DecodeReplaceGo (l.length + 1) l

/-! ## Python `int()` -/

def decDigitsVal : List Char → Option Nat
  | [] => none
  | l =>
    if l.all Char.isDigit then
      some (l.foldl (fun acc c => acc * 10 + (c.toNat - 48)) 0)
    else none

/-- Python `int(s)` on a decimal string: strips surrounding whitespace,
accepts an optional sign, fails (`ValueError`) otherwise.  (Underscore
digit grouping is not modelled; the program never produces it.) -/
def pyIntParse (s : String) : Option Int :=
  match (pyStrip s).data with
  | '+' :: ds => (decDigitsVal ds).map Int.ofNat
  | '-' :: ds => (decDigitsVal ds).map (fun n => -(n : Int))
  | ds => (decDigitsVal ds).map Int.ofNat

/-! ## Percent-decoding, modelling `urllib.parse.unquote` -/

def isHexDigitChar (c : Char) : Bool :=
  ('0' ≤ c ∧ c ≤ '9') ∨ ('a' ≤ c ∧ c ≤ 'f') ∨ ('A' ≤ c ∧ c ≤ 'F')

def hexDigitVal (c : Char) : Nat :=
  if '0' ≤ c ∧ c ≤ '9' then c.toNat - 48
  else if 'a' ≤ c ∧ c ≤ 'f' then c.toNat - 87
  else if 'A' ≤ c ∧ c ≤ 'F' then c.toNat - 55
  else 0

/-- Byte sequence produced by `urllib.parse.unquote`: every valid `%XX`
pair becomes one byte, everything else contributes its UTF-8 bytes. -/
def unquoteBytes : List Char → List Nat
  | [] => []
  | '%' :: a :: b :: rest =>
    if isHexDigitChar a ∧ isHexDigitChar b then
      (hexDigitVal a * 16 + hexDigitVal b) :: unquoteBytes rest
    else utf8EncodeChar '%' ++ unquoteBytes (a :: b :: rest)
  | c :: rest => utf8EncodeChar c ++ unquoteBytes rest

/-- Model of `urllib.parse.unquote(s.replace('+', ' '))`, the decoding
`parse_qsl` applies to every query name and value (UTF-8 with the
`replace` error handler). -/
def unquotePlus (s : String) : String :=
  String.mk (utf8DecodeReplace (unquoteBytes
    (s.data.map (fun c => if c = '+' then ' ' else c))))

/-! ## `urllib.parse.urlparse` (path and query components) -/

/-- Characters allowed in a URL scheme after the leading letter. -/
def isSchemeChar (c : Char) : Bool :=
  c.isAlpha ∨ c.isDigit ∨ c = '+' ∨ c = '-' ∨ c = '.'

/-- A valid scheme prefix before the first `:`: nonempty, leading ASCII
letter, scheme characters throughout. -/
def isValidScheme (l : List Char) : Bool :=
  match l with
  | [] => false
  | c :: _ => c.isAlpha ∧ l.all isSchemeChar

/-- `urlparse` splits parameter text after `;` off the last path segment. -/
def splitParamsOff (p : List Char) : List Char :=
  if p.contains '/' then
    let revSeg := p.reverse.takeWhile (· ≠ '/')
    let pre := (p.reverse.drop revSeg.length).reverse
    pre ++ revSeg.reverse.takeWhile (· ≠ ';')
  else p.takeWhile (· ≠ ';')

/-- The `path` and `query` components of `urllib.parse.urlparse`:
strip a valid scheme at the first `:`, strip a `//netloc` up to the next
`/`, `?` or `#`, drop the fragment after the first `#`, split the query
off at the first `?`, and split `;`-parameters off the last path segment.
No percent-decoding happens here, exactly as in CPython. -/
def pyUrlparse (url : String) : String × String :=
  let u0 := url.data
  let u1 := match splitOnceChar ':' u0 with
    | some (pre, rest) => if isValidScheme pre then rest else u0
    | none => u0
  let u2 := if u1.take 2 = ['/', '/'] then
      (u1.drop 2).dropWhile (fun c => c ≠ '/' ∧ c ≠ '?' ∧ c ≠ '#')
    else u1
  let u3 := u2.takeWhile (· ≠ '#')
  let (pathRaw, query) := match splitOnceChar '?' u3 with
    | some (l, r) => (l, r)
    | none => (u3, [])
  (String.mk (splitParamsOff pathRaw), String.mk query)

/-! ## `urllib.parse.parse_qs` -/

/-- Model of `urllib.parse.parse_qsl(qs)` with CPython's defaults
(`keep_blank_values=False`, separator `&`): split on `&`, skip empty
fields, skip fields with no `=` and fields whose raw value is empty,
percent-plus-decode the remaining names and values, in order. -/
def parseQsl (qs : String) : List (String × String) :=
  (pySplitAllChar '&' qs).filterMap (fun field =>
    if field.data.isEmpty then none
    else match splitOnceChar '=' field.data with
      | none => none
      | some (n, v) =>
        if v.isEmpty then none
        else some (unquotePlus (String.mk n), unquotePlus (String.mk v)))

/-- Model of `urllib.parse.parse_qs(qs)`: group the `parse_qsl` pairs by
key into lists, first-occurrence key order, appending values in order. -/
def parseQs (qs : String) : List (String × List String) :=
  (parseQsl qs).foldl (fun acc p =>
    match dget acc p.1 with
    | some vs => dset acc p.1 (vs ++ [p.2])
    | none => acc ++ [(p.1, [p.2])]) []

/-! ## JSON, modelling `json.loads` / `json.dumps` -/

/-- Python values produced by `json.loads`: objects become insertion-ordered
dictionaries (duplicate keys collapse, last wins), numbers with a fraction
or exponent become floats, carried here by the raw matched token. -/
inductive Json where
  | obj (fields : List (String × Json))
  | arr (elems : List Json)
  | str (s : String)
  | num (n : Int)
  | fnum (raw : String)
  | bool (b : Bool)
  | null
deriving Repr

/-- JSON whitespace as skipped by Python's decoder. -/
def jsonSkipWs (l : List Char) : List Char :=
  l.dropWhile (fun c => c = ' ' ∨ c = '\t' ∨ c = '\n' ∨ c = '\r')

/-- Scalar value of four hex digits. -/
def hex4Val (a b c d : Char) : Nat :=
  ((hexDigitVal a * 16 + hexDigitVal b) * 16 + hexDigitVal c) * 16 + hexDigitVal d

/-- Parse the remainder of a JSON string literal (the opening quote already
consumed), handling the escapes Python's decoder accepts and rejecting raw
control characters (`strict=True`).  Surrogate escape pairs combine into
one scalar; a lone surrogate — which Python would keep in the `str` but a
Lean `Char` cannot represent — becomes U+FFFD. -/
def parseJsonStrGo : Nat → List Char → List Char → Option (String × List Char)
  | 0, _, _ => none
  | Nat.succ _, [], _ => none
  | Nat.succ _, '"' :: rest, acc => some (String.mk acc.reverse, rest)
  | Nat.succ fuel, '\\' :: rest, acc =>
    match rest with
    | '"' :: r => parseJsonStrGo fuel r ('"' :: acc)
    | '\\' :: r => parseJsonStrGo fuel r ('\\' :: acc)
    | '/' :: r => parseJsonStrGo fuel r ('/' :: acc)
    | 'b' :: r => parseJsonStrGo fuel r ('\x08' :: acc)
    | 'f' :: r => parseJsonStrGo fuel r ('\x0c' :: acc)
    | 'n' :: r => parseJsonStrGo fuel r ('\n' :: acc)
    | 'r' :: r => parseJsonStrGo fuel r ('\r' :: acc)
    | 't' :: r => parseJsonStrGo fuel r ('\t' :: acc)
    | 'u' :: a :: b :: c :: d :: r =>
      if isHexDigitChar a ∧ isHexDigitChar b ∧ isHexDigitChar c ∧ isHexDigitChar d then
        let cp := hex4Val a b c d
        if 0xD800 ≤ cp ∧ cp ≤ 0xDBFF then
          match r with
          | '\\' :: 'u' :: e :: f :: g :: h :: r2 =>
            if isHexDigitChar e ∧ isHexDigitChar f ∧ isHexDigitChar g ∧ isHexDigitChar h then
              let cp2 := hex4Val e f g h
              if 0xDC00 ≤ cp2 ∧ cp2 ≤ 0xDFFF then
                parseJsonStrGo fuel r2
                  (Char.ofNat (0x10000 + (cp - 0xD800) * 1024 + (cp2 - 0xDC00)) :: acc)
              else parseJsonStrGo fuel (('\\' : Char) :: 'u' :: e :: f :: g :: h :: r2) ('�' :: acc)
            else parseJsonStrGo fuel (('\\' : Char) :: 'u' :: e :: f :: g :: h :: r2) ('�' :: acc)
          | _ => parseJsonStrGo fuel r ('�' :: acc)
        else if 0xDC00 ≤ cp ∧ cp ≤ 0xDFFF then parseJsonStrGo fuel r ('�' :: acc)
        else parseJsonStrGo fuel r (Char.ofNat cp :: acc)
      else none
    | _ => none
  | Nat.succ fuel, c :: rest, acc =>
    if c.toNat < 0x20 then none else parseJsonStrGo fuel rest (c :: acc)

/-- Parse a JSON number token per the grammar Python's decoder uses:
`-?(0|[1-9][0-9]*)(\.[0-9]+)?([eE][+-]?[0-9]+)?`, plus the constants
`NaN`, `Infinity` and `-Infinity`.  Integers become `Json.num`; numbers
with a fraction or exponent become `Json.fnum` with the raw token. -/
def parseJsonNumber (l : List Char) : Option (Json × List Char) :=
  if ("NaN".data.isPrefixOf l) then some (Json.fnum "NaN", l.drop 3)
  else if ("Infinity".data.isPrefixOf l) then some (Json.fnum "Infinity", l.drop 8)
  else if ("-Infinity".data.isPrefixOf l) then some (Json.fnum "-Infinity", l.drop 9)
  else
    let (neg, l1) := match l with
      | '-' :: rest => (true, rest)
      | _ => (false, l)
    let intPart := l1.takeWhile Char.isDigit
    if intPart.isEmpty then none
    else if intPart.head? = some '0' ∧ intPart.length > 1 then none
    else
      let l2 := l1.drop intPart.length
      let (fracPart, l3) := match l2 with
        | '.' :: r =>
          let ds := r.takeWhile Char.isDigit
          if ds.isEmpty then ([], l2) else ('.' :: ds, r.drop ds.length)
        | _ => ([], l2)
      let (expPart, l4) := match l3 with
        | e :: r =>
          if e = 'e' ∨ e = 'E' then
            let (sgn, r1) := match r with
              | '+' :: r' => (['+'], r')
              | '-' :: r' => (['-'], r')
              | _ => ([], r)
            let ds := r1.takeWhile Char.isDigit
            if ds.isEmpty then ([], l3) else (e :: (sgn ++ ds), r1.drop ds.length)
          else ([], l3)
        | _ => ([], l3)
      if fracPart.isEmpty ∧ expPart.isEmpty then
        match decDigitsVal intPart with
        | some n => some (Json.num (if neg then -(n : Int) else (n : Int)), l2)
        | none => none
      else
        let raw := (if neg then ['-'] else []) ++ intPart ++ fracPart ++ expPart
        some (Json.fnum (String.mk raw), l4)

mutual

/-- Parse one JSON value at `l` (leading whitespace already skipped),
following Python's `json.JSONDecoder`. -/
def parseJsonValue : Nat → List Char → Option (Json × List Char)
  | 0, _ => none
  | Nat.succ fuel, l =>
    match l with
    | '"' :: rest => (parseJsonStrGo (rest.length + 1) rest []).map (fun p => (Json.str p.1, p.2))
    | '{' :: rest =>
      let r := jsonSkipWs rest
      match r with
      | '}' :: r2 => some (Json.obj [], r2)
      | _ => parseJsonMembers fuel [] r
    | '[' :: rest =>
      let r := jsonSkipWs rest
      match r with
      | ']' :: r2 => some (Json.arr [], r2)
      | _ => parseJsonElems fuel [] r
    | 't' :: rest =>
      if "rue".data.isPrefixOf rest then some (Json.bool true, rest.drop 3) else none
    | 'f' :: rest =>
      if "alse".data.isPrefixOf rest then some (Json.bool false, rest.drop 4) else none
    | 'n' :: rest =>
      if "ull".data.isPrefixOf rest then some (Json.null, rest.drop 3) else none
    | _ => parseJsonNumber l

/-- Parse the members of a JSON object from the position of a key,
accumulating into a Python dict (`dset`: duplicate keys collapse,
last value wins). -/
def parseJsonMembers : Nat → List (String × Json) → List Char → Option (Json × List Char)
  | 0, _, _ => none
  | Nat.succ fuel, acc, l =>
    match l with
    | '"' :: rest =>
      match parseJsonStrGo (rest.length + 1) rest [] with
      | none => none
      | some (key, r1) =>
        match jsonSkipWs r1 with
        | ':' :: r2 =>
          match parseJsonValue fuel (jsonSkipWs r2) with
          | none => none
          | some (v, r3) =>
            let acc2 := dset acc key v
            match jsonSkipWs r3 with
            | ',' :: r4 => parseJsonMembers fuel acc2 (jsonSkipWs r4)
            | '}' :: r4 => some (Json.obj acc2, r4)
            | _ => none
        | _ => none
    | _ => none

/-- Parse the elements of a JSON array from the position of a value. -/
def parseJsonElems : Nat → List Json → List Char → Option (Json × List Char)
  | 0, _, _ => none
  | Nat.succ fuel, acc, l =>
    match parseJsonValue fuel l with
    | none => none
    | some (v, r1) =>
      let acc2 := acc ++ [v]
      match jsonSkipWs r1 with
      | ',' :: r2 => parseJsonElems fuel acc2 (jsonSkipWs r2)
      | ']' :: r2 => some (Json.arr acc2, r2)
      | _ => none

end

/-- Model of Python `json.loads`: parse one value surrounded by optional
whitespace; `none` exactly where CPython raises `JSONDecodeError`. -/
def pyJsonLoads (s : String) : Option Json :=
  match parseJsonValue (2 * s.data.length + 2) (jsonSkipWs s.data) with
  | some (j, rest) => if (jsonSkipWs rest).isEmpty then some j else none
  | none => none

/-- Lower-case hex digit for a value `< 16`. -/
def hexDigitLower (n : Nat) : Char :=
  if n < 10 then Char.ofNat (48 + n) else Char.ofNat (87 + n)

/-- Escaping of one character in `json.dumps` output with the default
`ensure_ascii=True`. -/
def jsonEscapeChar (c : Char) : String :=
  if c = '"' then "\\\""
  else if c = '\\' then "\\\\"
  else if c = '\n' then "\\n"
  else if c = '\r' then "\\r"
  else if c = '\t' then "\\t"
  else if c = '\x08' then "\\b"
  else if c = '\x0c' then "\\f"
  else if c.toNat < 0x20 ∨ 0x7F ≤ c.toNat then
    if c.toNat < 0x10000 then
      String.mk ['\\', 'u', hexDigitLower (c.toNat / 4096 % 16),
        hexDigitLower (c.toNat / 256 % 16), hexDigitLower (c.toNat / 16 % 16),
        hexDigitLower (c.toNat % 16)]
    else
      let v := c.toNat - 0x10000
      let hi := 0xD800 + v / 1024
      let lo := 0xDC00 + v % 1024
      String.mk ['\\', 'u', hexDigitLower (hi / 4096 % 16), hexDigitLower (hi / 256 % 16),
        hexDigitLower (hi / 16 % 16), hexDigitLower (hi % 16),
        '\\', 'u', hexDigitLower (lo / 4096 % 16), hexDigitLower (lo / 256 % 16),
        hexDigitLower (lo / 16 % 16), hexDigitLower (lo % 16)]
  else String.singleton c

/-- Serialized form of a string in `json.dumps` output. -/
def jsonDumpString (s : String) : String :=
  "\"" ++ String.join (s.data.map jsonEscapeChar) ++ "\""

mutual

/-- Model of Python `json.dumps` with default arguments (separators
`", "` and `": "`, `ensure_ascii=True`).  A float (`fnum`) prints its
carried token; Python would print `repr(float(token))`, which agrees on
the canonical tokens this development ever serializes. -/
def jsonDumps : Json → String
  | .obj fields => "\x7b" ++ jsonDumpsFields fields ++ "\x7d"
  | .arr elems => "[" ++ jsonDumpsElems elems ++ "]"
  | .str s => jsonDumpString s
  | .num n => toString n
  | .fnum raw => raw
  | .bool true => "true"
  | .bool false => "false"
  | .null => "null"

def jsonDumpsFields : List (String × Json) → String
  | [] => ""
  | [(k, v)] => jsonDumpString k ++ ": " ++ jsonDumps v
  | (k, v) :: p :: rest =>
    jsonDumpString k ++ ": " ++ jsonDumps v ++ ", " ++ jsonDumpsFields (p :: rest)

def jsonDumpsElems : List Json → String
  | [] => ""
  | [v] => jsonDumps v
  | v :: w :: rest => jsonDumps v ++ ", " ++ jsonDumpsElems (w :: rest)

end

mutual

/-- Structural equality on `Json`, the model of Python `==` between
values `json.loads` can produce. -/
def jsonBeq : Json → Json → Bool
  | .obj f1, .obj f2 => jsonFieldsBeq f1 f2
  | .arr e1, .arr e2 => jsonElemsBeq e1 e2
  | .str a, .str b => a = b
  | .num a, .num b => a = b
  | .fnum a, .fnum b => a = b
  | .bool a, .bool b => a = b
  | .null, .null => true
  | _, _ => false

def jsonFieldsBeq : List (String × Json) → List (String × Json) → Bool
  | [], [] => true
  | (k1, v1) :: r1, (k2, v2) :: r2 => k1 = k2 && jsonBeq v1 v2 && jsonFieldsBeq r1 r2
  | _, _ => false

def jsonElemsBeq : List Json → List Json → Bool
  | [], [] => true
  | a :: r1, b :: r2 => jsonBeq a b && jsonElemsBeq r1 r2
  | _, _ => false

end

instance : BEq Json := ⟨jsonBeq⟩

/-- Python truthiness of the float token carried by `Json.fnum`:
zero mantissa means falsy (`NaN`/`Infinity` carry no digits and stay
truthy). -/
def pyFloatRawIsZero (raw : String) : Bool :=
  let mant := raw.data.takeWhile (fun c => c ≠ 'e' ∧ c ≠ 'E')
  mant.any Char.isDigit && mant.all (fun c => !c.isDigit || c = '0')

/-- Python falsiness of a `json.loads` result (`not value`): empty
containers, empty strings, zero numbers, `False` and `None` are falsy. -/
def jsonFalsy : Json → Bool
  | .obj fields => fields.isEmpty
  | .arr es => es.isEmpty
  | .str s => s.isEmpty
  | .num n => n = 0
  | .fnum raw => pyFloatRawIsZero raw
  | .bool b => !b
  | .null => true

/-! ## The `Request` class -/

/-- Python exceptions this program can raise and (sometimes) leave
unhandled. -/
inductive PyError where
  | valueError (msg : String)
  | typeError (msg : String)
  | keyError (key : String)
  | unicodeDecodeError
  | incompleteReadError
deriving DecidableEq, Repr

/-- The `Request` dataclass of `looplite.py`. -/
structure Request where
  method : String
  path : String
  headers : List (String × String) := []
  query_params : List (String × String) := []
  body : String := ""
deriving Repr

/-- `Request.json`: `json.loads(self.body)`, `None` on `JSONDecodeError`. -/
def Request.json (r : Request) : Option Json := pyJsonLoads r.body

/-- One iteration of the header loop in `Request.from_raw`: if `": "`
occurs in the line, split at the FIRST `":"` (note: not at the first
`": "`) into a stripped key and value; otherwise the line is ignored. -/
def headerOfLine (line : String) : Option (String × String) :=
  if containsSeq ": ".data line.data then
    match splitOnceChar ':' line.data with
    | some (k, v) => some (pyStrip (String.mk k), pyStrip (String.mk v))
    | none => none
  else none

/-- The header-line loop of `Request.from_raw`: lines without `": "` are
skipped; assignment into the dict makes the last occurrence of a key win. -/
def parseHeaderLines (lines : List String) : List (String × String) :=
  lines.foldl (fun h line =>
    match headerOfLine line with
    | some (k, v) => dset h k v
    | none => h) []

/-- The query dict built by `Request.from_raw`:
`{k: v[0] for k, v in parse_qs(query).items()}`. -/
def queryParamsFromQs (qs : String) : List (String × String) :=
  (parseQs qs).map (fun p => (p.1, p.2.headD ""))

/-- The part of `Request.from_raw` after splitting the first header line:
`method, path, _ = header_lines[0].split()` unpacks exactly three
whitespace-separated tokens (`ValueError` otherwise); path and query come
from `urlparse`, the query dict is first-value-per-key, and the remaining
lines become the header dict. -/
def fromRawCore (tokens : List String) (restLines : List String)
    (body_text : String) : Except PyError Request :=
  match tokens with
  | [method, path, _version] =>
    let parsed := pyUrlparse path
    .ok { method := method
          path := parsed.1
          headers := parseHeaderLines restLines
          query_params := queryParamsFromQs parsed.2
          body := body_text }
  | _ => .error (.valueError "not enough values to unpack")

/-- `Request.from_raw(header_text, body_text)`: split the header block
into lines (`ValueError` on an empty request) and process the first
line's tokens and the remaining lines with `fromRawCore`. -/
def Request.from_raw (header_text : String) (body_text : String) :
    Except PyError Request :=
  match pySplitlines header_text with
  | [] => .error (.valueError "Empty HTTP request")
  | first :: restLines => fromRawCore (pySplitWs first) restLines body_text

/-! ## `Request.from_stream` -/

/-- The header/body separator `b"\r\n\r\n"`. -/
def crlfcrlf : List Nat := [13, 10, 13, 10]

/-- The chunked read loop of `Request.from_stream`: while the separator is
absent from the accumulated buffer, read up to 1024 bytes; an empty read
(end of stream) breaks the loop.  Returns the accumulated buffer and the
bytes not yet read. -/
def readHeaderLoopGo : Nat → List Nat → List Nat → List Nat × List Nat
  | 0, acc, rest => (acc, rest)
  | Nat.succ fuel, acc, rest =>
    if containsSeq crlfcrlf acc then (acc, rest)
    else match rest with
      | [] => (acc, [])
      | c :: restTail =>
        readHeaderLoopGo fuel (acc ++ (c :: restTail).take 1024) ((c :: restTail).drop 1024)

def readHeaderLoop (acc : List Nat) (rest : List Nat) : List Nat × List Nat :=
  readHeaderLoopGo (rest.length + 1) acc rest


/-- Split a byte list at the first occurrence of `sep` (removed);
`none` when `sep` does not occur — Python `data.split(sep, 1)` raising
on unpacking when only one part comes back. -/
def splitOnceSeq (sep : List Nat) : List Nat → Option (List Nat × List Nat)
  | [] => if sep.isEmpty then some ([], []) else none
  | l@(c :: rest) =>
    if sep.isPrefixOf l then some ([], l.drop sep.length)
    else (splitOnceSeq sep rest).map (fun pr => (c :: pr.1, pr.2))

/-- The `Content-Length` scan of `Request.from_stream`: first line whose
lowercased text starts with `content-length:` supplies
`int(line.split(":")[1].strip())`; no such line means length `0`.
`int` failure is an unhandled `ValueError`. -/
def contentLengthOf : List String → Except PyError Int
  | [] => .ok 0
  | line :: rest =>
    if strStartsWith (pyLower line) "content-length:" then
      match (pySplitAllChar ':' line).get? 1 with
      | some part =>
        match pyIntParse (pyStrip part) with
        | some n => .ok n
        | none => .error (.valueError "invalid literal for int")
      | none => .error (.valueError "index out of range")
    else contentLengthOf rest

/-- `Request.from_stream`, as a function of the connection's full byte
stream: accumulate chunks until `b"\r\n\r\n"` appears, split the buffer
at the first separator (`ValueError` when the stream ended without one),
decode the header block strictly, scan for `Content-Length`, read exactly
the missing body bytes (`IncompleteReadError` when the stream is too
short), decode the body strictly — an invalid body byte is an unhandled
`UnicodeDecodeError` — and finish with `Request.from_raw`. -/
def Request.from_stream (stream : List Nat) : Except PyError Request :=
  let hd := readHeaderLoop [] stream
  match splitOnceSeq crlfcrlf hd.1 with
  | none => .error (.valueError "not enough values to unpack")
  | some (headerBytes, body0) =>
    match utf8Decode headerBytes with
    | none => .error .unicodeDecodeError
    | some hdrChars =>
      let request_text := String.mk hdrChars
      match contentLengthOf (pySplitlines request_text) with
      | .error e => .error e
      | .ok cl =>
        let remaining : Int := cl - body0.length
        if remaining > 0 then
          if hd.2.length < remaining.toNat then .error .incompleteReadError
          else
            let body := body0 ++ hd.2.take remaining.toNat
            match utf8Decode body with
            | none => .error .unicodeDecodeError
            | some bodyChars => Request.from_raw request_text (String.mk bodyChars)
        else
          match utf8Decode body0 with
          | none => .error .unicodeDecodeError
          | some bodyChars => Request.from_raw request_text (String.mk bodyChars)

/-! ## The `Response` class -/

/-- The possible runtime shapes of `Response.body`, mirroring the
`isinstance` dispatch in `Response.to_bytes`: a `dict`, a `list`, a `str`,
a `bytes` value, `None` (the dataclass default), or any other object
carried by its `str()` rendering. -/
inductive Body where
  | dict (fields : List (String × Json))
  | list (elems : List Json)
  | str (s : String)
  | bytes (b : List Nat)
  | pyNone
  | other (s : String)
deriving Repr

/-- The `Response` dataclass of `looplite.py`. -/
structure Response where
  body : Body := .pyNone
  status_code : Nat := 200
  headers : List (String × String) := []
  content_type : String := "text/plain"
deriving Repr

/-- The encoded body bytes computed by `Response.to_bytes`: a dict or list
is `json.dumps(...).encode("utf-8")`, a str is UTF-8 encoded, bytes pass
through, anything else (including `None`) is `str(...).encode("utf-8")`. -/
def Response.body_bytes (r : Response) : List Nat :=
  match r.body with
  | .dict fields => utf8Encode (jsonDumps (Json.obj fields))
  | .list elems => utf8Encode (jsonDumps (Json.arr elems))
  | .str s => utf8Encode s
  | .bytes b => b
  | .pyNone => utf8Encode "None"
  | .other s => utf8Encode s

/-- Python `dict.setdefault(k, v)`: insert only when the key is absent. -/
def dsetdefault {α : Type} (d : List (String × α)) (key : String) (v : α) :
    List (String × α) :=
  if dmem d key then d else d ++ [(key, v)]

/-- The header dict after the mutations `Response.to_bytes` performs:
`setdefault` of `Content-Type` (with `application/json` for dict/list
bodies, `self.content_type` otherwise), then the unconditional
assignment `headers["Content-Length"] = str(len(body_bytes))`.  Both
touch exactly the given capitalizations. -/
def Response.final_headers (r : Response) : List (String × String) :=
  let h := match r.body with
    | .dict _ => dsetdefault r.headers "Content-Type" "application/json"
    | .list _ => dsetdefault r.headers "Content-Type" "application/json"
    | _ => dsetdefault r.headers "Content-Type" r.content_type
  dset h "Content-Length" (toString r.body_bytes.length)

/-- The status-line text: `status_map.get(code, "Unknown Status")` over
the fixed three-entry table. -/
def statusText (code : Nat) : String :=
  if code = 200 then "200 OK"
  else if code = 404 then "404 Not Found"
  else if code = 500 then "500 Internal Server Error"
  else "Unknown Status"

/-- `Response.to_bytes`: the status line, the rendered header lines, a
blank line, then the body bytes. -/
def Response.to_bytes (r : Response) : List Nat :=
  let header_lines :=
    String.join (r.final_headers.map (fun p => p.1 ++ ": " ++ p.2 ++ "\r\n"))
  let header := "HTTP/1.1 " ++ statusText r.status_code ++ "\r\n" ++ header_lines ++ "\r\n"
  utf8Encode header ++ r.body_bytes

/-! ## The argument binder `Looplite._get_args` -/

/-- A value the binder can place into `bound_args.arguments`: the Request
object itself, a path or query string, or a JSON body field. -/
inductive Val where
  | vreq (r : Request)
  | vstr (s : String)
  | vjson (j : Json)
deriving Repr

/-- `body_json = request.json() or {}`: a parse failure or any falsy JSON
value is replaced by the empty dict. -/
def bodyJsonOrEmpty (r : Request) : Json :=
  match r.json with
  | none => Json.obj []
  | some j => if jsonFalsy j then Json.obj [] else j

/-- Python `name in body_json`: key membership for a dict, element
equality for a list, substring for a str, `TypeError` otherwise. -/
def jsonContains (j : Json) (name : String) : Except PyError Bool :=
  match j with
  | .obj fields => .ok (dmem fields name)
  | .arr es => .ok (es.contains (Json.str name))
  | .str s => .ok (containsSeq name.data s.data)
  | _ => .error (.typeError "argument is not iterable")

/-- Python `body_json[name]`: dict indexing succeeds, a list or str
indexed by a str raises `TypeError`, the rest are not subscriptable. -/
def jsonIndex (j : Json) (name : String) : Except PyError Json :=
  match j with
  | .obj fields =>
    match dget fields name with
    | some v => .ok v
    | none => .error (.keyError name)
  | .arr _ => .error (.typeError "list indices must be integers or slices")
  | .str _ => .error (.typeError "string indices must be integers")
  | _ => .error (.typeError "object is not subscriptable")

/-- Step 0 of `Looplite._get_args`: inject the `Request` object when the
handler declares a parameter with the reserved name `request`. -/
def getArgsInit (sigParams : List String) (request : Request) :
    List (String × Val) :=
  if sigParams.contains "request" then dset [] "request" (Val.vreq request)
  else []

/-- Step 1 of `Looplite._get_args`: write every declared path variable —
unconditionally, so a path variable named `request` overwrites the
injected `Request` object. -/
def getArgsPath (sigParams : List String) (params : List (String × String))
    (args : List (String × Val)) : List (String × Val) :=
  params.foldl (fun a p =>
    if sigParams.contains p.1 then dset a p.1 (Val.vstr p.2) else a) args

/-- Step 2 of `Looplite._get_args`: bind query parameters, only for
declared names not already bound. -/
def getArgsQuery (sigParams : List String) (request : Request)
    (args : List (String × Val)) : List (String × Val) :=
  sigParams.foldl (fun a name =>
    match dget request.query_params name with
    | some v => if dmem a name then a else dset a name (Val.vstr v)
    | none => a) args

/-- One iteration of step 3 of `Looplite._get_args`:
`if name in body_json and name not in bound_args.arguments`, then bind
`body_json[name]`.  `name in body_json` is evaluated first, so a
non-iterable truthy body raises `TypeError` out of the binder. -/
def getArgsBodyStep (bj : Json) (a : List (String × Val)) (name : String) :
    Except PyError (List (String × Val)) := do
  let c ← jsonContains bj name
  if c && !(dmem a name) then
    let v ← jsonIndex bj name
    pure (dset a name (Val.vjson v))
  else
    pure a

/-- Step 3 of `Looplite._get_args`: bind JSON body fields, only for
declared names not already bound. -/
def getArgsBody (sigParams : List String) (bj : Json)
    (args : List (String × Val)) : Except PyError (List (String × Val)) :=
  sigParams.foldlM (fun a name => getArgsBodyStep bj a name) args

/-- `Looplite._get_args(handler, request, params)`.  The handler's
signature is its ordered list of declared parameter names.  Runs the four
steps of the source in order: `request` injection, path variables, query
parameters, JSON body fields. -/
def _get_args (sigParams : List String) (request : Request)
    (params : List (String × String)) : Except PyError (List (String × Val)) :=
  getArgsBody sigParams (bodyJsonOrEmpty request)
    (getArgsQuery sigParams request
      (getArgsPath sigParams params (getArgsInit sigParams request)))

/-- The binding the (amended) spec predicts for one declared name: the
first source that provides it in the effective precedence order of the
code — path variables, then the reserved `request` injection, then query
parameters, then JSON-object body fields — and nothing for undeclared
names. -/
def bindSpec (sigParams : List String) (request : Request)
    (params : List (String × String)) (name : String) : Option Val :=
  if name ∈ sigParams then
    match dget params name with
    | some v => some (Val.vstr v)
    | none =>
      if name = "request" then some (Val.vreq request)
      else match dget request.query_params name with
        | some v => some (Val.vstr v)
        | none =>
          match jsonContains (bodyJsonOrEmpty request) name,
              jsonIndex (bodyJsonOrEmpty request) name with
          | .ok true, .ok v => some (Val.vjson v)
          | _, _ => none
  else none

/-! ## The route table -/

/-- One token of a compiled path pattern: a literal character or a named
variable segment (`<name>` compiled to `(?P<name>[^/]+)`). -/
inductive Tok where
  | lit (c : Char)
  | var (name : String)
deriving DecidableEq, Repr

/-- The first component of `List.span`-like splitting used by
`compileToks`; `spanNe sep l = (l.takeWhile (· ≠ sep), rest)`. -/
def spanNe (sep : Char) : List Char → List Char × List Char
  | [] => ([], [])
  | c :: rest =>
    if c = sep then ([], c :: rest)
    else
      let pr := spanNe sep rest
      (c :: pr.1, pr.2)

/-- Model of `re.sub(r'<([^>]+)>', r'(?P<\1>[^/]+)', path)` applied to a
path template: every `<name>` with nonempty `name` free of `>` becomes a
variable token, all other characters stay literal.  (Patterns whose
variable names `re.compile` would reject — non-identifiers or duplicates
— raise at registration in Python and are not excluded here.) -/
def compileToksGo : Nat → List Char → List Tok
  | 0, _ => []
  | _, [] => []
  | Nat.succ fuel, '<' :: rest =>
    match spanNe '>' rest with
    | (name, '>' :: after) =>
      if name.isEmpty then Tok.lit '<' :: compileToksGo fuel rest
      else Tok.var (String.mk name) :: compileToksGo fuel after
    | (_, _) => Tok.lit '<' :: compileToksGo fuel rest
  | Nat.succ fuel, c :: rest => Tok.lit c :: compileToksGo fuel rest

def compileToks (l : List Char) : List Tok :=
  compileToksGo (l.length + 1) l

/-- Matching a compiled pattern against a whole path, with the captures of
Python's `match.groupdict()` in group order: a literal token consumes its
character, a variable token consumes a maximal-first (greedy, like
`[^/]+`) nonempty run of non-`/` characters, and the full path must be
consumed (the pattern is anchored `^...$`). -/
def tmatch : List Tok → List Char → Option (List (String × String))
  | [], p => if p.isEmpty then some [] else none
  | Tok.lit _ :: _, [] => none
  | Tok.lit c :: ts, c2 :: ps => if c = c2 then tmatch ts ps else none
  | Tok.var nm :: ts, p =>
    let m := (p.takeWhile (· ≠ '/')).length
    (List.range m).findSome? (fun i =>
      let k := m - i
      match tmatch ts (p.drop k) with
      | some caps => some ((nm, String.mk (p.take k)) :: caps)
      | none => none)

/-- The `Looplite` application object: its ordered route table of
`(method, compiled pattern, handler)` entries.  Handlers are an opaque
type parameter. -/
structure App (α : Type) where
  routes : List (String × List Tok × α) := []
deriving Repr

/-- `Looplite.route(path, method)` applied to a handler `func`: compile
the template once and append one `(m.upper(), compiled, func)` entry per
listed method, in order. -/
def App.route {α : Type} (app : App α) (path : String) (method : List String)
    (func : α) : App α :=
  let compiled_path := compileToks path.data
  { routes := app.routes ++ method.map (fun m => (pyUpper m, compiled_path, func)) }

/-- The scan of `Looplite.get_handler_and_path_params`: first entry whose
method equals `method.upper()` and whose pattern matches the path wins;
`(None, None)` — here `none` — when no entry matches. -/
def findHandler {α : Type} (routes : List (String × List Tok × α))
    (method path : String) : Option (α × List (String × String)) :=
  match routes with
  | [] => none
  | (m, regex, handler) :: rest =>
    if m = pyUpper method then
      match tmatch regex path.data with
      | some caps => some (handler, caps)
      | none => findHandler rest method path
    else findHandler rest method path

/-- `Looplite.get_handler_and_path_params(method, path)`. -/
def App.get_handler_and_path_params {α : Type} (app : App α)
    (method path : String) : Option (α × List (String × String)) :=
  findHandler app.routes method path

/-! ## The dispatcher `Looplite.handle` (handler-invocation stage) -/

/-- What `await handler(**args)` can return: a full `Response`, passed
through unchanged, or any other value, wrapped as `Response(body=result)`. -/
inductive HandlerOutcome where
  | resp (r : Response)
  | value (v : Body)

/-- The `except` branch of `Looplite.handle`:
`Response(status_code=500, body={"error": "Internal Server Error"})`. -/
def internalErrorResponse : Response :=
  { status_code := 500, body := .dict [("error", Json.str "Internal Server Error")] }

/-- The no-route branch of `Looplite.handle`:
`Response(status_code=404, body={"error": "Not Found"})`. -/
def notFoundResponse : Response :=
  { status_code := 404, body := .dict [("error", Json.str "Not Found")] }

/-- The `try` block of `Looplite.handle` once a handler resolved:
`_get_args` and the handler call both run inside the `try`, so an
exception from either — modelled as the `.error` side, carrying the
exception text — is caught and converted to `internalErrorResponse`;
a normal result is passed through or wrapped. -/
def dispatchResolved (bindResult : Except PyError (List (String × Val)))
    (run : List (String × Val) → Except String HandlerOutcome) : Response :=
  match bindResult with
  | .error _ => internalErrorResponse
  | .ok args =>
    match run args with
    | .error _ => internalErrorResponse
    | .ok (.resp r) => r
    | .ok (.value v) => { body := v }

/-! ## Theorems about route resolution -/

/-- One route-table entry answers a `(method, path)` pair when its stored
method equals `method.upper()` and its compiled pattern matches the whole
path. -/
def routeMatches {α : Type} (method path : String) (e : String × List Tok × α) :
    Bool :=
  if e.1 = pyUpper method then (tmatch e.2.1 path.data).isSome else false

theorem char_toNat_ofNat_valid (n : Nat) (h : n < 55296) : (Char.ofNat n).toNat = n := by
  rw [Char.ofNat, dif_pos (Or.inl h : Nat.isValidChar n)]
  simp [Char.ofNatAux, Char.toNat, UInt32.ofNat', UInt32.toNat, BitVec.toNat_ofNatLt]

theorem pyUpperChar_idem (c : Char) : pyUpperChar (pyUpperChar c) = pyUpperChar c := by
  unfold pyUpperChar
  by_cases h : 97 ≤ c.toNat ∧ c.toNat ≤ 122
  · rw [if_pos h]
    have hval : (Char.ofNat (c.toNat - 32)).toNat = c.toNat - 32 :=
      char_toNat_ofNat_valid _ (by omega)
    rw [if_neg (by rw [hval]; omega)]
  · rw [if_neg h, if_neg h]

theorem pyUpper_idem (s : String) : pyUpper (pyUpper s) = pyUpper s := by
  unfold pyUpper
  simp only [List.map_map]
  have hcomp : pyUpperChar ∘ pyUpperChar = pyUpperChar := funext pyUpperChar_idem
  rw [hcomp]

theorem dget_dset {α : Type} (d : List (String × α)) (k : String) (v : α) (m : String) :
    dget (dset d k v) m = if k = m then some v else dget d m := by
  induction d with
  | nil =>
    by_cases h : k = m <;> simp [dset, dget, h]
  | cons p rest ih =>
    obtain ⟨pk, pv⟩ := p
    simp only [dset]
    by_cases hpk : pk = k
    · subst hpk
      simp only [if_pos rfl, dget]
      by_cases h : pk = m <;> simp [h]
    · simp only [if_neg hpk, dget]
      by_cases h : pk = m
      · subst h
        have hk : ¬ k = pk := fun hk => hpk hk.symm
        simp [if_neg hk]
      · simp [h, ih]

theorem spanNe_snd_length (sep : Char) (l : List Char) :
    (spanNe sep l).2.length ≤ l.length := by
  induction l with
  | nil => simp [spanNe]
  | cons c rest ih =>
    simp only [spanNe]
    by_cases h : c = sep
    · simp [h]
    · simp only [if_neg h]
      exact Nat.le_succ_of_le ih

theorem findHandler_eq_find {α : Type} (routes : List (String × List Tok × α))
    (method path : String) :
    findHandler routes method path =
      (routes.find? (routeMatches method path)).bind
        (fun e => (tmatch e.2.1 path.data).map (fun caps => (e.2.2, caps))) := by
  induction routes with
  | nil => rfl
  | cons e rest ih =>
    obtain ⟨m, regex, handler⟩ := e
    by_cases hm : m = pyUpper method
    · cases htm : tmatch regex path.data with
      | some caps =>
        simp [findHandler, List.find?, routeMatches, hm, htm]
      | none =>
        simp [findHandler, List.find?, routeMatches, hm, htm, ih]
    · simp [findHandler, List.find?, routeMatches, hm, ih]

theorem findHandler_none_iff {α : Type} (routes : List (String × List Tok × α))
    (method path : String) :
    findHandler routes method path = none ↔
      ∀ e ∈ routes, routeMatches method path e = false := by
  rw [findHandler_eq_find]
  constructor
  · intro hnone e he
    by_contra hmatch
    rcases hfind : routes.find? (routeMatches method path) with _ | f
    · rw [List.find?_eq_none] at hfind
      exact hfind e he (by simpa using hmatch)
    · have hf := List.find?_some hfind
      rw [hfind] at hnone
      unfold routeMatches at hf
      by_cases hfm : f.1 = pyUpper method
      · rw [if_pos hfm] at hf
        rcases htm : tmatch f.2.1 path.data with _ | caps
        · rw [htm] at hf; simp at hf
        · simp [htm] at hnone
      · rw [if_neg hfm] at hf; simp at hf
  · intro hall
    have : routes.find? (routeMatches method path) = none :=
      List.find?_eq_none.mpr (fun e he => by simp [hall e he])
    rw [this]
    rfl

set_option maxRecDepth 16384 in
/-- C2: `get_handler_and_path_params` scans the registered entries in
registration order and returns the handler and captured path variables of
the first entry whose method equals the request method (upper-cased) and
whose compiled matcher matches the whole path; `none` (Python
`(None, None)`) comes back only when no entry matches; and after
registering `GET /a/<x>` and then `GET /a/b`, resolving `GET /a/b`
returns the first-registered handler with `{x: "b"}`. -/
theorem get_handler_first_match :
    (∀ (α : Type) (app : App α) (method path : String),
      app.get_handler_and_path_params method path =
        (app.routes.find? (routeMatches method path)).bind
          (fun e => (tmatch e.2.1 path.data).map (fun caps => (e.2.2, caps)))) ∧
    (∀ (α : Type) (app : App α) (method path : String),
      app.get_handler_and_path_params method path = none ↔
        ∀ e ∈ app.routes, routeMatches method path e = false) ∧
    (((App.mk [] : App Nat).route "/a/<x>" ["GET"] 0).route "/a/b" ["GET"] 1
        |>.get_handler_and_path_params "GET" "/a/b") = some (0, [("x", "b")]) :=
  ⟨fun _ app m p => findHandler_eq_find app.routes m p,
   fun _ app m p => findHandler_none_iff app.routes m p,
   rfl⟩

theorem findHandler_upper {α : Type} (routes : List (String × List Tok × α))
    (method path : String) :
    findHandler routes method path = findHandler routes (pyUpper method) path := by
  induction routes with
  | nil => rfl
  | cons e rest ih =>
    obtain ⟨m, regex, handler⟩ := e
    simp only [findHandler, pyUpper_idem, ih]

/-- C9: route resolution is insensitive to the letter case of the request
method, because methods are upper-cased both at registration and at
resolution: resolving with `m` and with `m.upper()` agree. -/
theorem get_handler_method_case_insensitive :
    ∀ (α : Type) (app : App α) (method path : String),
      app.get_handler_and_path_params method path =
        app.get_handler_and_path_params (pyUpper method) path :=
  fun _ app m p => findHandler_upper app.routes m p

/-! ## Theorems about `Response.to_bytes` -/

set_option maxRecDepth 16384 in
/-- C3: the claim asserts that a `Response` with a status code outside the
known table still serializes to a status line containing the numeric
code.  The code instead emits `HTTP/1.1 Unknown Status` — the numeric
code appears nowhere in the serialized bytes (the only digits come from
`Content-Length`), which is not a valid HTTP/1.1 status line.  Witnessed
at status 418 with the default `None` body. -/
theorem to_bytes_unknown_status_no_code :
    (Response.mk Body.pyNone 418 [] "text/plain").to_bytes =
      utf8Encode
        "HTTP/1.1 Unknown Status\r\nContent-Type: text/plain\r\nContent-Length: 4\r\n\r\nNone" ∧
    containsSeq (utf8Encode "418")
      ((Response.mk Body.pyNone 418 [] "text/plain").to_bytes) = false :=
  ⟨rfl, rfl⟩

/-! ## Theorems about the dispatcher -/

set_option maxRecDepth 16384 in
/-- C8: when the resolved handler raises during binding (`_get_args`
errors) or during invocation (the handler call errors), `handle` answers
with status 500 and structured body `{"error": "Internal Server Error"}`,
and the serialized response is one fixed byte string, independent of the
exception, so the original exception text never crosses the boundary. -/
theorem dispatch_handler_error_500 :
    ∀ (bindResult : Except PyError (List (String × Val)))
      (run : List (String × Val) → Except String HandlerOutcome),
      ((∃ e, bindResult = .error e) ∨
        (∃ args msg, bindResult = .ok args ∧ run args = .error msg)) →
      dispatchResolved bindResult run = internalErrorResponse ∧
      (dispatchResolved bindResult run).status_code = 500 ∧
      (dispatchResolved bindResult run).body =
        Body.dict [("error", Json.str "Internal Server Error")] ∧
      (dispatchResolved bindResult run).to_bytes =
        utf8Encode "HTTP/1.1 500 Internal Server Error\r\nContent-Type: application/json\r\nContent-Length: 34\r\n\r\n\x7b\"error\": \"Internal Server Error\"\x7d" := by
  intro bindResult run h
  have hfix : dispatchResolved bindResult run = internalErrorResponse := by
    rcases h with ⟨e, rfl⟩ | ⟨args, msg, rfl, hrun⟩
    · rfl
    · simp [dispatchResolved, hrun]
  refine ⟨hfix, ?_, ?_, ?_⟩ <;> rw [hfix] <;> rfl

theorem dispatch_handler_error_500_witness :
    dispatchResolved (.error (.typeError "boom"))
        (fun _ => .ok (.value Body.pyNone)) = internalErrorResponse ∧
      (dispatchResolved (.error (.typeError "boom"))
        (fun _ => .ok (.value Body.pyNone))).status_code = 500 ∧
      (dispatchResolved (.error (.typeError "boom"))
        (fun _ => .ok (.value Body.pyNone))).body =
        Body.dict [("error", Json.str "Internal Server Error")] ∧
      (dispatchResolved (.error (.typeError "boom"))
        (fun _ => .ok (.value Body.pyNone))).to_bytes =
        utf8Encode "HTTP/1.1 500 Internal Server Error\r\nContent-Type: application/json\r\nContent-Length: 34\r\n\r\n\x7b\"error\": \"Internal Server Error\"\x7d" :=
  dispatch_handler_error_500 (.error (.typeError "boom"))
    (fun _ => .ok (.value Body.pyNone)) (Or.inl ⟨.typeError "boom", rfl⟩)

/-! ## Theorems about `Request.from_stream` -/

set_option maxRecDepth 16384 in
/-- C6: the spec requires that invalid body bytes never crash the framer.
The code calls `body.decode()` with the strict handler and no `try`, so a
single `0xFF` body byte raises an unhandled `UnicodeDecodeError` out of
`Request.from_stream` (the header block of this input is plain ASCII and
decodes fine, so the failure is the body decode). -/
theorem from_stream_invalid_body_unhandled_decode_error :
    Request.from_stream
        (utf8Encode "GET / HTTP/1.1\r\nContent-Length: 1\r\n\r\n" ++ [255]) =
      .error PyError.unicodeDecodeError := by
  rfl

/-! ## Theorems about `Request.from_raw`: path handling (C4) -/

theorem splitOnceChar_some {sep : Char} {l a b : List Char}
    (h : splitOnceChar sep l = some (a, b)) : sep ∉ a ∧ l = a ++ sep :: b := by
  induction l generalizing a b with
  | nil => exact Option.noConfusion h
  | cons c rest ih =>
    by_cases hc : c = sep
    · simp [splitOnceChar, hc] at h
      obtain ⟨ha, hb⟩ := h
      subst ha; subst hb; subst hc
      simp
    · simp only [splitOnceChar, if_neg hc] at h
      rcases hr : splitOnceChar sep rest with _ | pr
      · rw [hr] at h; simp at h
      · rw [hr] at h
        obtain ⟨a1, b1⟩ := pr
        simp at h
        obtain ⟨ha, hb⟩ := h
        have hsplit := ih hr
        obtain ⟨hnm, heq⟩ := hsplit
        subst ha; subst hb
        refine ⟨?_, by rw [heq]; rfl⟩
        intro hmem
        rcases List.mem_cons.mp hmem with hx | hx
        · exact hc hx.symm
        · exact hnm hx

theorem splitOnceChar_none {sep : Char} {l : List Char}
    (h : splitOnceChar sep l = none) : sep ∉ l := by
  induction l with
  | nil => simp
  | cons c rest ih =>
    by_cases hc : c = sep
    · simp [splitOnceChar, hc] at h
    · simp only [splitOnceChar, if_neg hc] at h
      rcases hr : splitOnceChar sep rest with _ | pr
      · intro hmem
        rcases List.mem_cons.mp hmem with hx | hx
        · exact hc hx.symm
        · exact ih hr hx
      · rw [hr] at h; simp at h

theorem mem_splitParamsOff {x : Char} {p : List Char}
    (h : x ∈ splitParamsOff p) : x ∈ p := by
  unfold splitParamsOff at h
  by_cases hs : p.contains '/'
  · rw [if_pos hs] at h
    rcases List.mem_append.mp h with hx | hx
    · rw [List.mem_reverse] at hx
      exact List.mem_reverse.mp (List.mem_of_mem_drop hx)
    · have hx2 := (List.takeWhile_sublist _).mem hx
      rw [List.mem_reverse] at hx2
      exact List.mem_reverse.mp ((List.takeWhile_sublist _).mem hx2)
  · rw [if_neg hs] at h
    exact (List.takeWhile_sublist _).mem h

theorem pyUrlparse_path_clean (url : String) :
    '?' ∉ (pyUrlparse url).1.data ∧ '#' ∉ (pyUrlparse url).1.data := by
  unfold pyUrlparse
  set u1 := (match splitOnceChar ':' url.data with
    | some (pre, rest) => if isValidScheme pre then rest else url.data
    | none => url.data) with hu1
  set u2 := (if u1.take 2 = ['/', '/'] then
      (u1.drop 2).dropWhile (fun c => c ≠ '/' ∧ c ≠ '?' ∧ c ≠ '#')
    else u1) with hu2
  have hnohash : '#' ∉ u2.takeWhile (· ≠ '#') := fun hmem => by
    have := List.mem_takeWhile_imp hmem
    simp at this
  rcases hsplit : splitOnceChar '?' (u2.takeWhile (· ≠ '#')) with _ | pr
  · have hnoq := splitOnceChar_none hsplit
    simp only [hsplit]
    exact ⟨fun hm => hnoq (mem_splitParamsOff hm),
           fun hm => hnohash (mem_splitParamsOff hm)⟩
  · obtain ⟨a, b⟩ := pr
    have hsome := splitOnceChar_some hsplit
    obtain ⟨hnoq, heq⟩ := hsome
    simp only [hsplit]
    refine ⟨fun hm => hnoq (mem_splitParamsOff hm), fun hm => ?_⟩
    have ha : '#' ∈ a := mem_splitParamsOff hm
    exact hnohash (heq ▸ List.mem_append.mpr (Or.inl ha))

theorem fromRawCore_ok_path {toks restLines : List String} {bt : String}
    {req : Request} (h : fromRawCore toks restLines bt = .ok req) :
    ∃ p0, req.path = (pyUrlparse p0).1 := by
  rcases toks with _ | ⟨m, _ | ⟨p0, _ | ⟨v, _ | ⟨w, rest⟩⟩⟩⟩ <;>
    simp [fromRawCore] at h
  exact ⟨p0, by rw [← h]⟩

theorem from_raw_ok_path {ht bt : String} {req : Request}
    (h : Request.from_raw ht bt = .ok req) :
    ∃ p0, req.path = (pyUrlparse p0).1 := by
  unfold Request.from_raw at h
  rcases hsl : pySplitlines ht with _ | ⟨first, rest⟩ <;> rw [hsl] at h
  · exact Except.noConfusion h
  · exact fromRawCore_ok_path h

/-- C4 (amended): the claim as stated is false — `from_raw` does not
percent-decode the path (see `from_raw_path_not_decoded`).  What holds:
the stored path is the raw path component of the request-target, free of
the query string (no `?` and no `#` can appear in it), and a
percent-encoded target like `/a%20b` is stored verbatim. -/
theorem from_raw_path_amended :
    (∀ ht bt req, Request.from_raw ht bt = .ok req →
      '?' ∉ req.path.data ∧ '#' ∉ req.path.data) ∧
    Request.from_raw "GET /a%20b HTTP/1.1" "" =
      .ok { method := "GET", path := "/a%20b", headers := [],
            query_params := [], body := "" } := by
  constructor
  · intro ht bt req hok
    obtain ⟨p0, hpath⟩ := from_raw_ok_path hok
    rw [hpath]
    exact pyUrlparse_path_clean p0
  · rfl

set_option maxRecDepth 16384 in
/-- C4 (counterexample): the claim says the request-target `/a%20b` yields
the percent-decoded path `"/a b"`; `from_raw` stores `"/a%20b"`. -/
theorem from_raw_path_not_decoded :
    Request.from_raw "GET /a%20b HTTP/1.1" "" =
      .ok { method := "GET", path := "/a%20b", headers := [],
            query_params := [], body := "" } ∧
    ("/a%20b" : String) ≠ "/a b" :=
  ⟨rfl, by decide⟩

theorem from_raw_path_amended_witness :
    '?' ∉ (Request.mk "GET" "/a%20b" [] [] "").path.data ∧
    '#' ∉ (Request.mk "GET" "/a%20b" [] [] "").path.data :=
  from_raw_path_amended.1 "GET /a%20b HTTP/1.1" "" _ rfl

/-! ## Theorems about `Request.from_raw`: header parsing (C5) -/

theorem dget_append {α : Type} (xs ys : List (String × α)) (k : String) :
    dget (xs ++ ys) k = (dget xs k).or (dget ys k) := by
  induction xs with
  | nil => simp [dget]
  | cons p rest ih =>
    obtain ⟨pk, pv⟩ := p
    by_cases h : pk = k
    · simp [dget, h]
    · simp [dget, h, ih]

theorem parseHeaderLines_foldl_get (lines : List String)
    (h0 : List (String × String)) (key : String) :
    dget (lines.foldl (fun h line =>
        match headerOfLine line with
        | some (k, v) => dset h k v
        | none => h) h0) key =
      (dget ((lines.filterMap headerOfLine).reverse) key).or (dget h0 key) := by
  induction lines generalizing h0 with
  | nil => simp [dget]
  | cons l ls ih =>
    rcases hl : headerOfLine l with _ | ⟨k, v⟩
    · simp only [List.foldl_cons, hl, List.filterMap_cons, ih]
    · simp only [List.foldl_cons, hl, List.filterMap_cons, ih]
      rw [List.reverse_cons, dget_append, Option.or_assoc, dget_dset]
      by_cases hk : k = key <;> simp [dget, hk]

/-- C5 (amended): the claim's "split on the first `\": \"` delimiter" is
false — a qualifying line is split at its first `\":\"` (see the
counterexample).  What holds: a line after the first contributes a header
exactly when `": "` occurs in it, the entry is the whitespace-stripped
text before and after the FIRST `:`, and on duplicate keys the last
occurrence wins — looking a key up in the parsed headers equals looking
it up in the reversed list of per-line entries. -/
theorem from_raw_headers_amended :
    (∀ lines key, dget (parseHeaderLines lines) key =
      dget ((lines.filterMap headerOfLine).reverse) key) ∧
    Request.from_raw "GET / HTTP/1.1\r\nA: 1\r\nnocolon\r\nA: 2" "" =
      .ok { method := "GET", path := "/", headers := [("A", "2")],
            query_params := [], body := "" } := by
  constructor
  · intro lines key
    unfold parseHeaderLines
    rw [parseHeaderLines_foldl_get]
    simp [dget]
  · rfl

/-- C5 (counterexample): on the line `Host:x: y` (which contains `": "`),
the code splits at the first `:`, giving key `Host` and value `x: y`; the
claim's first-`": "` split would give key `Host:x` and value `y`. -/
theorem from_raw_header_first_colon_counterexample :
    parseHeaderLines ["Host:x: y"] = [("Host", "x: y")] ∧
    dget (parseHeaderLines ["Host:x: y"]) "Host:x" = none :=
  ⟨rfl, rfl⟩

/-! ## Theorems about `Response.to_bytes`: headers (C7) -/

theorem dget_dsetdefault_ne {α : Type} (d : List (String × α)) (key k : String)
    (v : α) (hk : k ≠ key) : dget (dsetdefault d key v) k = dget d k := by
  unfold dsetdefault
  by_cases hm : dmem d key
  · rw [if_pos hm]
  · rw [if_neg hm, dget_append]
    have hne : ¬ key = k := fun h => hk h.symm
    have hone : dget [(key, v)] k = none := by
      simp [dget, hne]
    rw [hone, Option.or_none]

/-- C7 (amended): the claim's "under any capitalization" is false — only
the exact-case `Content-Length` key is overwritten (see the
counterexample, where a caller-set lowercase `content-length` survives
next to the computed one).  What holds: the exact-case `Content-Length`
entry always carries the byte length of the final encoded body,
overwriting any caller-set value of that exact key; every other key is
left untouched; and a handler-set exact-case `Content-Type` takes
precedence over the default. -/
theorem to_bytes_content_length_amended :
    (∀ r : Response,
      dget r.final_headers "Content-Length" =
        some (toString r.body_bytes.length)) ∧
    (∀ (r : Response) (k : String), k ≠ "Content-Length" → k ≠ "Content-Type" →
      dget r.final_headers k = dget r.headers k) ∧
    (∀ (r : Response) (ct : String), dget r.headers "Content-Type" = some ct →
      dget r.final_headers "Content-Type" = some ct) := by
  refine ⟨?_, ?_, ?_⟩
  · intro r
    unfold Response.final_headers
    rw [dget_dset]
    simp
  · intro r k hcl hct
    unfold Response.final_headers
    rw [dget_dset, if_neg (fun h => hcl h.symm)]
    cases r.body <;>
      exact dget_dsetdefault_ne _ _ _ _ hct
  · intro r ct hct
    have hmem : dmem r.headers "Content-Type" = true := by
      unfold dmem; rw [hct]; rfl
    unfold Response.final_headers
    rw [dget_dset, if_neg (by decide)]
    cases r.body <;> simp [dsetdefault, hmem, hct]

theorem to_bytes_content_length_amended_witness :
    dget (Response.mk (Body.str "hi") 200
        [("X-Foo", "1"), ("Content-Type", "text/csv")] "text/plain").final_headers
        "X-Foo" =
      dget (Response.mk (Body.str "hi") 200
        [("X-Foo", "1"), ("Content-Type", "text/csv")] "text/plain").headers
        "X-Foo" ∧
    dget (Response.mk (Body.str "hi") 200
        [("X-Foo", "1"), ("Content-Type", "text/csv")] "text/plain").final_headers
        "Content-Type" = some "text/csv" :=
  ⟨to_bytes_content_length_amended.2.1 _ "X-Foo" (by decide) (by decide),
   to_bytes_content_length_amended.2.2 _ "text/csv" rfl⟩

set_option maxRecDepth 16384 in
/-- C7 (counterexample): a caller-set `content-length` under a different
capitalization is NOT overwritten: serialization emits both the stale
caller value and the computed exact-case `Content-Length`, so the claim's
"exactly one Content-Length header (under any capitalization of the
name), overwriting the caller-set value" fails. -/
theorem to_bytes_content_length_case_counterexample :
    (Response.mk (Body.str "hi") 200 [("content-length", "999")]
        "text/plain").final_headers =
      [("content-length", "999"), ("Content-Type", "text/plain"),
        ("Content-Length", "2")] ∧
    containsSeq (utf8Encode "content-length: 999\r\n")
      ((Response.mk (Body.str "hi") 200 [("content-length", "999")]
        "text/plain").to_bytes) = true ∧
    containsSeq (utf8Encode "Content-Length: 2\r\n")
      ((Response.mk (Body.str "hi") 200 [("content-length", "999")]
        "text/plain").to_bytes) = true :=
  ⟨rfl, rfl, rfl⟩

/-! ## Theorems about the argument binder (C1) -/

theorem dget_none_of_not_mem {α : Type} {l : List (String × α)} {k : String}
    (h : k ∉ l.map Prod.fst) : dget l k = none := by
  induction l with
  | nil => rfl
  | cons p rest ih =>
    obtain ⟨pk, pv⟩ := p
    simp only [List.map_cons, List.mem_cons] at h
    push_neg at h
    obtain ⟨h1, h2⟩ := h
    have hne : ¬ pk = k := fun he => h1 he.symm
    simp [dget, hne, ih h2]

theorem getArgsInit_get (sigParams : List String) (request : Request)
    (name : String) :
    dget (getArgsInit sigParams request) name =
      if "request" ∈ sigParams ∧ name = "request"
      then some (Val.vreq request) else none := by
  unfold getArgsInit
  by_cases hc : "request" ∈ sigParams
  · by_cases hn : name = "request"
    · subst hn
      simp [hc, dset, dget]
    · have hne : ¬ "request" = name := fun h => hn h.symm
      simp [hc, hn, dset, dget, hne]
  · simp [hc, dget]

theorem getArgsPath_get (sigParams : List String)
    (params : List (String × String)) (a : List (String × Val)) (name : String)
    (hnd : (params.map Prod.fst).Nodup) :
    dget (getArgsPath sigParams params a) name =
      if name ∈ sigParams ∧ (dget params name).isSome then
        (dget params name).map Val.vstr
      else dget a name := by
  induction params generalizing a with
  | nil => simp [getArgsPath, dget]
  | cons p ps ih =>
    obtain ⟨pk, pv⟩ := p
    simp only [List.map_cons, List.nodup_cons] at hnd
    obtain ⟨hpk, hnd2⟩ := hnd
    simp only [getArgsPath, List.foldl_cons] at ih ⊢
    rw [ih _ hnd2]
    by_cases hpn : pk = name
    · subst hpn
      have hps : dget ps pk = none := dget_none_of_not_mem hpk
      have hget : dget ((pk, pv) :: ps) pk = some pv := by simp [dget]
      by_cases hc : pk ∈ sigParams
      · simp [hc, hps, hget, dget_dset]
      · simp [hc, hps, hget]
    · have hget : dget ((pk, pv) :: ps) name = dget ps name := by
        simp [dget, hpn]
      rw [hget]
      by_cases hc : pk ∈ sigParams
      · have hpres : dget (dset a pk (Val.vstr pv)) name = dget a name := by
          rw [dget_dset, if_neg hpn]
        simp [hc, hpres]
      · simp [hc]


theorem getArgsQueryStep_ne (request : Request) {s name : String}
    (a : List (String × Val)) (hsn : s ≠ name) :
    dget (match dget request.query_params s with
      | some v => if dmem a s then a else dset a s (Val.vstr v)
      | none => a) name = dget a name := by
  rcases hq : dget request.query_params s with _ | v
  · simp only
  · simp only
    by_cases hdm : dmem a s = true
    · rw [if_pos hdm]
    · rw [if_neg hdm, dget_dset, if_neg hsn]

theorem getArgsQueryStep_skip {request : Request} {s : String}
    (a : List (String × Val))
    (h : ¬ (dget a s = none ∧ (dget request.query_params s).isSome = true)) :
    (match dget request.query_params s with
      | some v => if dmem a s then a else dset a s (Val.vstr v)
      | none => a) = a := by
  rcases hq : dget request.query_params s with _ | v
  · simp only
  · simp only
    have hdm : dmem a s = true := by
      rcases hd : dget a s with _ | w
      · exact absurd ⟨hd, by rw [hq]; rfl⟩ h
      · unfold dmem
        rw [hd]
        rfl
    rw [if_pos hdm]

theorem getArgsQueryStep_bind {request : Request} {s : String} {v : String}
    (a : List (String × Val)) (hnone : dget a s = none)
    (hq : dget request.query_params s = some v) :
    dget (match dget request.query_params s with
      | some vv => if dmem a s then a else dset a s (Val.vstr vv)
      | none => a) s = some (Val.vstr v) := by
  rw [hq]
  simp only
  have hdm : ¬ dmem a s = true := by
    unfold dmem
    rw [hnone]
    simp
  rw [if_neg hdm, dget_dset]
  simp

theorem getArgsQuery_get (sigParams : List String) (request : Request)
    (a : List (String × Val)) (name : String) :
    (¬ (name ∈ sigParams ∧ dget a name = none ∧
        (dget request.query_params name).isSome = true) →
      dget (getArgsQuery sigParams request a) name = dget a name) ∧
    (name ∈ sigParams → dget a name = none →
      ∀ v, dget request.query_params name = some v →
      dget (getArgsQuery sigParams request a) name = some (Val.vstr v)) := by
  induction sigParams generalizing a with
  | nil =>
    constructor
    · intro _
      rfl
    · intro hmem
      exact absurd hmem (List.not_mem_nil name)
  | cons s ss ih =>
    simp only [getArgsQuery, List.foldl_cons] at ih ⊢
    constructor
    · intro hnc
      by_cases hsn : s = name
      · subst hsn
        have hnc2 : ¬ (dget a s = none ∧
            (dget request.query_params s).isSome = true) := by
          intro hx
          exact hnc ⟨List.mem_cons_self s ss, hx.1, hx.2⟩
        rw [getArgsQueryStep_skip a hnc2]
        exact (ih a).1 (by
          intro hx
          exact hnc ⟨List.mem_cons_of_mem s hx.1, hx.2.1, hx.2.2⟩)
      · have hpres := getArgsQueryStep_ne request a hsn
        have hres := (ih _).1 (by
          intro hx
          exact hnc ⟨List.mem_cons_of_mem s hx.1, by rw [← hpres]; exact hx.2.1,
            hx.2.2⟩)
        rw [hres, hpres]
    · intro hmem hnone v hq
      by_cases hsn : s = name
      · subst hsn
        have hbound := getArgsQueryStep_bind a hnone hq
        have hres := (ih _).1 (by
          intro hx
          rw [hbound] at hx
          exact Option.noConfusion hx.2.1)
        rw [hres, hbound]
      · have hns : name ∈ ss := (List.mem_cons.mp hmem).resolve_left
          (fun hx => hsn hx.symm)
        have hpres := getArgsQueryStep_ne request a hsn
        exact (ih _).2 hns (by rw [hpres]; exact hnone) v hq

theorem getArgsBodyStep_char {bj : Json} {s : String}
    {a a2 : List (String × Val)}
    (h : getArgsBodyStep bj a s = .ok a2) :
    (∃ v, jsonContains bj s = .ok true ∧ dget a s = none ∧
      jsonIndex bj s = .ok v ∧ a2 = dset a s (Val.vjson v)) ∨
    (a2 = a ∧ ¬ (jsonContains bj s = .ok true ∧ dget a s = none)) := by
  unfold getArgsBodyStep at h
  rcases hc : jsonContains bj s with e | c
  · rw [hc] at h
    simp only [bind, Except.bind] at h
    exact Except.noConfusion h
  · rw [hc] at h
    simp only [bind, Except.bind] at h
    rcases c with _ | _
    · simp only [Bool.false_and, Bool.false_eq_true, if_false, pure,
        Except.pure] at h
      right
      exact ⟨(Except.ok.inj h).symm,
        fun hx => Bool.noConfusion (Except.ok.inj hx.1)⟩
    · rcases hdm : dmem a s with _ | _
      · rw [hdm] at h
        simp only [Bool.not_false, Bool.and_true, if_true] at h
        rcases hx : jsonIndex bj s with e | v
        · rw [hx] at h
          simp only [bind, Except.bind] at h
          exact Except.noConfusion h
        · rw [hx] at h
          simp only [bind, Except.bind, pure, Except.pure] at h
          left
          refine ⟨v, rfl, ?_, rfl, (Except.ok.inj h).symm⟩
          unfold dmem at hdm
          exact Option.not_isSome_iff_eq_none.mp (by simp [hdm])
      · rw [hdm] at h
        simp only [Bool.not_true, Bool.and_false, Bool.false_eq_true, if_false,
          pure, Except.pure] at h
        right
        have hnn : ¬ dget a s = none := by
          unfold dmem at hdm
          intro hn
          rw [hn] at hdm
          simp at hdm
        exact ⟨(Except.ok.inj h).symm, fun hx => hnn hx.2⟩

theorem getArgsBody_foldlM_cons {bj : Json} {s : String} {ss : List String}
    {a args : List (String × Val)}
    (h : getArgsBody (s :: ss) bj a = .ok args) :
    ∃ a2, getArgsBodyStep bj a s = .ok a2 ∧ getArgsBody ss bj a2 = .ok args := by
  unfold getArgsBody at h ⊢
  simp only [List.foldlM_cons] at h
  rcases hstep : getArgsBodyStep bj a s with e | a2
  · rw [hstep] at h
    simp only [bind, Except.bind] at h
    exact Except.noConfusion h
  · rw [hstep] at h
    simp only [bind, Except.bind] at h
    exact ⟨a2, rfl, h⟩

theorem getArgsBody_get (sigParams : List String) (bj : Json)
    (a args : List (String × Val)) (name : String)
    (h : getArgsBody sigParams bj a = .ok args) :
    (¬ (name ∈ sigParams ∧ dget a name = none ∧
        jsonContains bj name = .ok true) →
      dget args name = dget a name) ∧
    (name ∈ sigParams → dget a name = none → jsonContains bj name = .ok true →
      ∃ v, jsonIndex bj name = .ok v ∧ dget args name = some (Val.vjson v)) := by
  induction sigParams generalizing a with
  | nil =>
    unfold getArgsBody at h
    simp only [List.foldlM_nil, pure, Except.pure] at h
    have ha : a = args := Except.ok.inj h
    subst ha
    constructor
    · intro _
      rfl
    · intro hmem
      exact absurd hmem (List.not_mem_nil name)
  | cons s ss ih =>
    obtain ⟨a2, hstep, hrest⟩ := getArgsBody_foldlM_cons h
    rcases getArgsBodyStep_char hstep with
      ⟨v, hcont, hnone, hidx, ha2⟩ | ⟨ha2, hskip⟩
    · subst ha2
      constructor
      · intro hnc
        by_cases hsn : s = name
        · subst hsn
          exact absurd ⟨List.mem_cons_self s ss, hnone, hcont⟩ hnc
        · have hpres : dget (dset a s (Val.vjson v)) name = dget a name := by
            rw [dget_dset, if_neg hsn]
          have hres := (ih _ hrest).1 (by
            intro hx
            exact hnc ⟨List.mem_cons_of_mem s hx.1,
              by rw [← hpres]; exact hx.2.1, hx.2.2⟩)
          rw [hres, hpres]
      · intro hmem hnone2 hcont2
        by_cases hsn : s = name
        · subst hsn
          refine ⟨v, hidx, ?_⟩
          have hset : dget (dset a s (Val.vjson v)) s = some (Val.vjson v) := by
            rw [dget_dset]
            simp
          have hres := (ih _ hrest).1 (by
            intro hx
            rw [hset] at hx
            exact Option.noConfusion hx.2.1)
          rw [hres, hset]
        · have hns : name ∈ ss := (List.mem_cons.mp hmem).resolve_left
            (fun hx => hsn hx.symm)
          have hpres : dget (dset a s (Val.vjson v)) name = dget a name := by
            rw [dget_dset, if_neg hsn]
          exact (ih _ hrest).2 hns (by rw [hpres]; exact hnone2) hcont2
    · subst ha2
      constructor
      · intro hnc
        exact (ih _ hrest).1 (by
          intro hx
          by_cases hsn : s = name
          · subst hsn
            exact hskip ⟨hx.2.2, hx.2.1⟩
          · exact hnc ⟨List.mem_cons_of_mem s hx.1, hx.2.1, hx.2.2⟩)
      · intro hmem hnone2 hcont2
        by_cases hsn : s = name
        · subst hsn
          exact absurd ⟨hcont2, hnone2⟩ hskip
        · have hns : name ∈ ss := (List.mem_cons.mp hmem).resolve_left
            (fun hx => hsn hx.symm)
          exact (ih _ hrest).2 hns hnone2 hcont2


/-- C1 (amended): the claim's precedence order is wrong in one place —
the path-variable write of `_get_args` is unconditional, so a path
variable named `request` overwrites the injected `Request` object (see
the counterexample).  What holds: for every handler signature, `Request`
and path-variable mapping (with distinct keys, as `groupdict`
guarantees), when `_get_args` returns an argument mapping, each declared
parameter name is bound to the first source that provides it in the
order path variables → reserved `request` → query parameters →
JSON-body fields, and undeclared names are absent (`bindSpec`); in
particular a name present in both path variables and query parameters is
always bound to the path-variable value. -/
theorem get_args_precedence_amended :
    ∀ (sigParams : List String) (request : Request)
      (params : List (String × String)) (args : List (String × Val)),
      (params.map Prod.fst).Nodup →
      _get_args sigParams request params = .ok args →
      ∀ name, dget args name = bindSpec sigParams request params name := by
  intro sigParams request params args hnd hok name
  unfold _get_args at hok
  have hbody := getArgsBody_get sigParams (bodyJsonOrEmpty request) _ args name hok
  have hquery := getArgsQuery_get sigParams request
    (getArgsPath sigParams params (getArgsInit sigParams request)) name
  have hpath := getArgsPath_get sigParams params (getArgsInit sigParams request)
    name hnd
  have hinit := getArgsInit_get sigParams request name
  unfold bindSpec
  by_cases hdecl : name ∈ sigParams
  · rw [if_pos hdecl]
    rcases hparams : dget params name with _ | v
    · rw [hparams] at hpath
      simp only [Option.isSome_none, Bool.false_eq_true, and_false,
        if_false] at hpath
      by_cases hreq : name = "request"
      · rw [if_pos ⟨hreq ▸ hdecl, hreq⟩] at hinit
        rw [hinit] at hpath
        have haq := hquery.1 (by
          intro hx
          rw [hpath] at hx
          exact Option.noConfusion hx.2.1)
        rw [hpath] at haq
        have hargs := hbody.1 (by
          intro hx
          rw [haq] at hx
          exact Option.noConfusion hx.2.1)
        rw [haq] at hargs
        rw [hargs]
        simp only [if_pos hreq]
      · rw [if_neg (fun hx => hreq hx.2)] at hinit
        rw [hinit] at hpath
        rw [if_neg hreq]
        rcases hq : dget request.query_params name with _ | v2
        · have haq := hquery.1 (by
            intro hx
            rw [hq] at hx
            simp at hx)
          rw [hpath] at haq
          rcases hjc : jsonContains (bodyJsonOrEmpty request) name with e | c
          · have hargs := hbody.1 (by
              intro hx
              rw [hjc] at hx
              exact Except.noConfusion hx.2.2)
            rw [haq] at hargs
            rw [hargs]
          · rcases c with _ | _
            · have hargs := hbody.1 (by
                intro hx
                rw [hjc] at hx
                have := Except.ok.inj hx.2.2
                exact Bool.noConfusion this)
              rw [haq] at hargs
              rw [hargs]
            · obtain ⟨v3, hidx, hargs⟩ := hbody.2 hdecl haq hjc
              rw [hargs]
              simp [hidx]
        · have haq := hquery.2 hdecl hpath v2 hq
          have hargs := hbody.1 (by
            intro hx
            rw [haq] at hx
            exact Option.noConfusion hx.2.1)
          rw [haq] at hargs
          rw [hargs]
    · rw [hparams] at hpath
      rw [if_pos ⟨hdecl, rfl⟩] at hpath
      have hpath2 : dget (getArgsPath sigParams params
          (getArgsInit sigParams request)) name = some (Val.vstr v) := hpath
      have haq := hquery.1 (by
        intro hx
        rw [hpath2] at hx
        exact Option.noConfusion hx.2.1)
      rw [hpath2] at haq
      have hargs := hbody.1 (by
        intro hx
        rw [haq] at hx
        exact Option.noConfusion hx.2.1)
      rw [haq] at hargs
      rw [hargs]
  · rw [if_neg hdecl]
    have hinit2 : dget (getArgsInit sigParams request) name = none := by
      rw [hinit, if_neg (by intro hx; exact hdecl (hx.2 ▸ hx.1))]
    rw [hinit2] at hpath
    have hpath2 : dget (getArgsPath sigParams params
        (getArgsInit sigParams request)) name = none := by
      rw [hpath, if_neg (by intro hx; exact hdecl hx.1)]
    have haq := hquery.1 (by intro hx; exact hdecl hx.1)
    rw [hpath2] at haq
    have hargs := hbody.1 (by intro hx; exact hdecl hx.1)
    rw [haq] at hargs
    exact hargs

set_option maxRecDepth 16384 in
/-- C1 (counterexample): the claim says a declared parameter named
`request` is always bound to the Request object regardless of the other
sources.  With a path variable named `request`, the unconditional
path-variable write of `_get_args` overwrites the injected Request: the
binder returns the path-variable string instead. -/
theorem get_args_request_shadowed_counterexample :
    _get_args ["request"] (Request.mk "GET" "/x" [] [] "")
        [("request", "boom")] =
      .ok [("request", Val.vstr "boom")] ∧
    Val.vstr "boom" ≠ Val.vreq (Request.mk "GET" "/x" [] [] "") :=
  ⟨rfl, fun h => Val.noConfusion h⟩

set_option maxRecDepth 16384 in
theorem get_args_precedence_amended_witness :
    dget [("id", Val.vstr "7"), ("verbose", Val.vstr "true")] "id" =
      bindSpec ["id", "verbose"]
        (Request.mk "GET" "/user/7" [] [("id", "q"), ("verbose", "true")] "")
        [("id", "7")] "id" :=
  get_args_precedence_amended ["id", "verbose"]
    (Request.mk "GET" "/user/7" [] [("id", "q"), ("verbose", "true")] "")
    [("id", "7")] [("id", Val.vstr "7"), ("verbose", Val.vstr "true")]
    (by decide) rfl "id"

/-! ## Theorems about query-parameter construction (C10) -/

theorem parseQs_foldl_get (pairs : List (String × String))
    (acc : List (String × List String)) (k : String) :
    dget (pairs.foldl (fun acc p =>
      match dget acc p.1 with
      | some vs => dset acc p.1 (vs ++ [p.2])
      | none => acc ++ [(p.1, [p.2])]) acc) k =
    match dget acc k with
    | some vs => some (vs ++ (pairs.filter (fun p => p.1 == k)).map Prod.snd)
    | none =>
      match (pairs.filter (fun p => p.1 == k)).map Prod.snd with
      | [] => none
      | v :: rest => some (v :: rest)
  := by
  induction pairs generalizing acc with
  | nil =>
    simp only [List.foldl_nil, List.filter_nil, List.map_nil, List.append_nil]
    rcases dget acc k with _ | vs
    · simp only
    · simp only
  | cons p ps ih =>
    obtain ⟨pk, pv⟩ := p
    simp only [List.foldl_cons]
    rcases hacc : dget acc pk with _ | vs
    · rw [ih]
      by_cases hk : pk = k
      · subst hk
        have happ : dget (acc ++ [(pk, [pv])]) pk = some [pv] := by
          rw [dget_append, hacc]
          simp [dget]
        rw [happ, hacc]
        simp [List.filter_cons]
      · have happ : dget (acc ++ [(pk, [pv])]) k = dget acc k := by
          rw [dget_append]
          have hone : dget [(pk, [pv])] k = none := by
            simp [dget, hk]
          rw [hone, Option.or_none]
        rw [happ]
        have hfil : ((pk, pv) :: ps).filter (fun p => p.1 == k) =
            ps.filter (fun p => p.1 == k) := by
          simp [List.filter_cons, hk]
        rw [hfil]
    · rw [ih]
      by_cases hk : pk = k
      · subst hk
        have hset : dget (dset acc pk (vs ++ [pv])) pk = some (vs ++ [pv]) := by
          rw [dget_dset]
          simp
        rw [hset, hacc]
        simp [List.filter_cons]
      · have hset : dget (dset acc pk (vs ++ [pv])) k = dget acc k := by
          rw [dget_dset, if_neg hk]
        rw [hset]
        have hfil : ((pk, pv) :: ps).filter (fun p => p.1 == k) =
            ps.filter (fun p => p.1 == k) := by
          simp [List.filter_cons, hk]
        rw [hfil]

theorem dget_map_headD (l : List (String × List String)) (k : String) :
    dget (l.map (fun p => (p.1, p.2.headD ""))) k =
      (dget l k).map (fun vs => vs.headD "") := by
  induction l with
  | nil => rfl
  | cons p rest ih =>
    obtain ⟨pk, pvs⟩ := p
    by_cases hk : pk = k
    · simp [dget, hk]
    · simp only [List.map_cons, dget, if_neg hk]
      exact ih

/-- C10: a query-string key whose every occurrence carries an empty raw
value (`a=` or a bare `a`) is absent from the Request's query-parameter
mapping: looking a key up yields exactly the first pair `parse_qsl`
retains for it (pairs with empty raw values are dropped before
grouping), so only keys with at least one non-empty value appear, each
mapped to its first such value.  Concretely, `?a=&b=1` produces
`{b: "1"}` and `?a=&a=2` produces `{a: "2"}`. -/
theorem query_params_blank_dropped_first_wins :
    (∀ qs k, dget (queryParamsFromQs qs) k =
      (((parseQsl qs).filter (fun p => p.1 == k)).map Prod.snd).head?) ∧
    Request.from_raw "GET /p?a=&b=1 HTTP/1.1" "" =
      .ok { method := "GET", path := "/p", headers := [],
            query_params := [("b", "1")], body := "" } ∧
    queryParamsFromQs "a=&a=2" = [("a", "2")] := by
  refine ⟨?_, ?_, ?_⟩
  · intro qs k
    unfold queryParamsFromQs parseQs
    rw [dget_map_headD, parseQs_foldl_get]
    simp only [dget]
    generalize ((parseQsl qs).filter (fun p => p.1 == k)).map Prod.snd = l
    rcases l with _ | ⟨v, rest⟩
    · rfl
    · rfl
  · rfl
  · rfl

end Looplite
